import Mathlib

/-!
Verification development for the RelayDevFest coordination service.

The embedding below translates the TypeScript sources into Lean:
* `src/lib/locks.ts` (`part_018`): the Redis-backed lock engine, with the Lua
  scripts of `acquireLocks` / `releaseLocks` modelled as pure functions on an
  explicit association-list store;
* `src/lib/validation.ts`: request validation helpers;
* `src/app/api/check_status/route.ts` (`part_008`) and
  `src/app/api/post_status/route.ts` (`part_009`): the two coordination routes;
* `src/lib/resolver.ts`: relative import resolution;
* `src/lib/graph-service.ts`: the incremental/full-rebuild planning slice of
  `GraphService.generate`.

JavaScript string primitives (`trim`, `split`, `lastIndexOf`, truthiness of
strings) are modelled by explicit character-list functions so that every
definition reduces in the kernel.
-/

namespace Relay

/-! ## JavaScript string primitives -/

/-- JS `String.prototype.trim` (whitespace stripped from both ends). -/
def jsTrim (s : String) : String :=
  ⟨((s.data.dropWhile Char.isWhitespace).reverse.dropWhile Char.isWhitespace).reverse⟩

/-- JS `str.split(sep)` for a single-character separator: accumulator-based
splitting of the character list. -/
def jsSplitGo (sep : Char) : List Char → List Char → List String
  | [], acc => [⟨acc.reverse⟩]
  | c :: rest, acc =>
    if c = sep then ⟨acc.reverse⟩ :: jsSplitGo sep rest []
    else jsSplitGo sep rest (c :: acc)

def jsSplitChar (sep : Char) (s : String) : List String :=
  jsSplitGo sep s.data []

/-- JS `str.startsWith(c)` for a one-character prefix. -/
def jsStartsWithChar (c : Char) (s : String) : Bool :=
  match s.data with
  | [] => false
  | x :: _ => x = c

/-- Index of the last occurrence of `c`, as JS `lastIndexOf` (`none` = `-1`). -/
def jsLastIndexOf (c : Char) : List Char → Option Nat
  | [] => none
  | x :: rest =>
    match jsLastIndexOf c rest with
    | some i => some (i + 1)
    | none => if x = c then some 0 else none

/-- JS truthiness of a string-or-null value: `null`/`undefined` and the empty
string are falsy. -/
def jsTruthy : Option String → Bool
  | none => false
  | some s => s ≠ ""

/-! ## Lock engine data model (`src/lib/locks.ts`) -/

/-- `status ∈ {'READING','WRITING'}` on a stored lock. -/
inductive LockStatus
  | READING
  | WRITING
deriving DecidableEq, Repr

/-- A well-formed stored lock value (`LockEntry` in `locks.ts`). -/
structure LockEntry where
  file_path : String
  user_id : String
  user_name : String
  status : LockStatus
  agent_head : String
  message : String
  timestamp : Nat
  expiry : Nat
deriving DecidableEq, Repr

/-- A raw value held in the Redis hash. `entry e` stands for a JSON string
passing every shape check of `parseLockEntry`; `malformed` for any value that
fails to decode or fails a field check. -/
inductive RawLockValue
  | entry (e : LockEntry)
  | malformed
deriving DecidableEq, Repr

/-- The Redis hash `locks:{repo}:{branch}` as an association list
`filePath → raw value` (Redis hash fields are unique; theorems that need
uniqueness carry a `NodupKeys` hypothesis). -/
abbrev LockStore := List (String × RawLockValue)

/-- Field names of the hash are pairwise distinct (a Redis hash invariant). -/
def NodupKeys (store : LockStore) : Prop :=
  (store.map Prod.fst).Nodup

instance (store : LockStore) : Decidable (NodupKeys store) := by
  unfold NodupKeys
  exact List.nodupDecidable _

/-- Association-list lookup: first binding wins (`HGET`). -/
def alookup {α : Type} : List (String × α) → String → Option α
  | [], _ => none
  | (k, v) :: rest, f => if k = f then some v else alookup rest f

/-- `HGET lock_key file_path`. -/
def hget (store : LockStore) (f : String) : Option RawLockValue :=
  alookup store f

/-- `HSET lock_key f v`: replace the binding in place, or append. -/
def hset : LockStore → String → RawLockValue → LockStore
  | [], f, v => [(f, v)]
  | (k, w) :: rest, f, v =>
    if k = f then (f, v) :: rest else (k, w) :: hset rest f v

/-- `HDEL lock_key f`. -/
def hdel : LockStore → String → LockStore
  | [], _ => []
  | (k, w) :: rest, f =>
    if k = f then hdel rest f else (k, w) :: hdel rest f

/-- `parseLockEntry`: defensive decode of a raw hash value. In the embedding
a raw value either is a fully well-formed entry or it is not; the TypeScript
field-by-field shape checks are what separates the two constructors. -/
def parseLockEntry : RawLockValue → Option LockEntry
  | .entry e => some e
  | .malformed => none

/-- `LOCK_TTL_MS` in `locks.ts`. -/
def LOCK_TTL_MS : Nat := 300000

/-- The argument record of `acquireLocks` after repo/branch normalization
(the repo/branch pair only selects the store, which is explicit here). -/
structure LockRequest where
  filePaths : List String
  userId : String
  userName : String
  status : LockStatus
  message : String
  agentHead : String
deriving Repr

/-- Outcome of the acquire Lua script: either the encoded conflict object,
the encoded success object, or a Lua runtime error (e.g. `cjson.decode` on a
malformed stored value), which aborts the script. -/
inductive LuaAcquireResult
  | conflict (conflicting_file conflicting_user : String)
  | ok (locks : List LockEntry)
  | scriptError
deriving DecidableEq, Repr

/-- Check phase of the acquire script: walk `file_paths`; a present,
non-expired entry of a different owner aborts with a conflict; a malformed
stored value makes `cjson.decode` raise (`.error`). -/
def acquireCheckPhase (store : LockStore) (userId : String) (timestamp : Nat) :
    List String → Except Unit (Option (String × String))
  | [] => .ok none
  | f :: rest =>
    match hget store f with
    | none => acquireCheckPhase store userId timestamp rest
    | some .malformed => .error ()
    | some (.entry lock) =>
      if timestamp < lock.expiry then
        if lock.user_id ≠ userId then .ok (some (f, lock.user_id))
        else acquireCheckPhase store userId timestamp rest
      else acquireCheckPhase store userId timestamp rest

/-- The fresh entry written by the commit phase for file `f`. -/
def freshLock (f : String) (req : LockRequest) (timestamp expiry : Nat) : LockEntry :=
  { file_path := f
    user_id := req.userId
    user_name := req.userName
    status := req.status
    agent_head := req.agentHead
    message := req.message
    timestamp := timestamp
    expiry := expiry }

/-- Commit phase of the acquire script: `HSET` a fresh entry for every file,
collecting the written entries in order. -/
def acquireCommitPhase (req : LockRequest) (timestamp expiry : Nat) :
    List String → LockStore → LockStore × List LockEntry
  | [], store => (store, [])
  | f :: rest, store =>
    let lock := freshLock f req timestamp expiry
    let out := acquireCommitPhase req timestamp expiry rest (hset store f (.entry lock))
    (out.1, lock :: out.2)

/-- The acquire Lua script as a whole: check phase, then commit phase. A check
phase error leaves the store untouched (no write precedes it). -/
def luaAcquire (store : LockStore) (req : LockRequest) (timestamp expiry : Nat) :
    LuaAcquireResult × LockStore :=
  match acquireCheckPhase store req.userId timestamp req.filePaths with
  | .error _ => (.scriptError, store)
  | .ok (some (f, u)) => (.conflict f u, store)
  | .ok none =>
    let out := acquireCommitPhase req timestamp expiry req.filePaths store
    (.ok out.2, out.1)

/-- The decoded result record returned by `acquireLocks`. -/
structure AcquireResult where
  success : Bool
  locks : Option (List LockEntry)
  reason : Option String
  conflictingFile : Option String
  conflictingUser : Option String
deriving DecidableEq, Repr

/-- `acquireLocks` (`locks.ts`): run the script with `timestamp = Date.now()`
and `expiry = timestamp + LOCK_TTL_MS`, then map the script result onto the
`AcquireResult` record; a script error surfaces as `INTERNAL_ERROR`. -/
def acquireLocks (store : LockStore) (req : LockRequest) (now : Nat) :
    AcquireResult × LockStore :=
  match luaAcquire store req now (now + LOCK_TTL_MS) with
  | (.ok locks, store') =>
    ({ success := true, locks := some locks, reason := none,
       conflictingFile := none, conflictingUser := none }, store')
  | (.conflict f u, store') =>
    ({ success := false, locks := none, reason := some "FILE_CONFLICT",
       conflictingFile := some f, conflictingUser := some u }, store')
  | (.scriptError, store') =>
    ({ success := false, locks := none, reason := some "INTERNAL_ERROR",
       conflictingFile := none, conflictingUser := none }, store')

/-- The release Lua script: `HDEL` each requested file iff the stored owner
matches. A malformed stored value makes `cjson.decode` raise midway; deletions
already performed persist (Redis scripts do not roll back), modelled by
`.error` carrying the partially mutated store. -/
def luaRelease (userId : String) : List String → LockStore → Except LockStore LockStore
  | [], store => .ok store
  | f :: rest, store =>
    match hget store f with
    | none => luaRelease userId rest store
    | some .malformed => .error store
    | some (.entry lock) =>
      if lock.user_id = userId then luaRelease userId rest (hdel store f)
      else luaRelease userId rest store

/-- `releaseLocks` (`locks.ts`): run the script; a script error is caught and
reported as `success: false`. -/
def releaseLocks (store : LockStore) (filePaths : List String) (userId : String) :
    Bool × LockStore :=
  match luaRelease userId filePaths store with
  | .ok store' => (true, store')
  | .error store' => (false, store')

/-- `getLocks` (`locks.ts`): read the whole hash, decode defensively, drop
entries with `expiry ≤ now`. -/
def getLocks (store : LockStore) (now : Nat) : List (String × LockEntry) :=
  store.filterMap fun p =>
    match parseLockEntry p.2 with
    | some lock => if lock.expiry > now then some (p.1, lock) else none
    | none => none

/-- `checkLocks` (`locks.ts`): restrict `getLocks` to the requested paths
(one pass over `filePaths`, keeping those present in the `getLocks` view). -/
def checkLocks (store : LockStore) (now : Nat) (filePaths : List String) :
    List (String × LockEntry) :=
  filePaths.filterMap fun f => (alookup (getLocks store now) f).map fun e => (f, e)

/-! ## Request validation (`src/lib/validation.ts`) -/

/-- `isNonEmptyString` applied to a string value. -/
def isNonEmptyStr (s : String) : Bool :=
  (jsTrim s).length > 0

/-- `isNonEmptyString` applied to a possibly-absent value. -/
def isNonEmptyString (v : Option String) : Bool :=
  match v with
  | some s => isNonEmptyStr s
  | none => false

/-- `getMissingFields` membership test for a string-valued field:
absent, or present with empty trimmed content. -/
def fieldMissingStr (v : Option String) : Bool :=
  match v with
  | none => true
  | some s => (jsTrim s).length = 0

/-- `getMissingFields` membership test for an array-valued field:
absent, or present and empty. -/
def fieldMissingArr (v : Option (List String)) : Bool :=
  match v with
  | none => true
  | some l => l.length = 0

/-- The loop body of `normalizeFilePaths`: keep non-empty strings, trim,
de-duplicate with a `seen` set. -/
def normalizeFilePathsGo (seen : List String) : List String → List String
  | [] => []
  | c :: rest =>
    if isNonEmptyStr c then
      let fp := jsTrim c
      if seen.contains fp then normalizeFilePathsGo seen rest
      else fp :: normalizeFilePathsGo (fp :: seen) rest
    else normalizeFilePathsGo seen rest

/-- `normalizeFilePaths`: `null` for a non-array value, otherwise the trimmed,
de-duplicated list of its non-empty string elements. -/
def normalizeFilePaths : Option (List String) → Option (List String)
  | none => none
  | some l => some (normalizeFilePathsGo [] l)

/-- `CoordinationStatus` (`validation.ts`). -/
inductive CoordinationStatus
  | READING
  | WRITING
  | OPEN
deriving DecidableEq, Repr

/-- `parseCoordinationStatus` over the (possibly absent) `status` value. -/
def parseCoordinationStatus : Option String → Option CoordinationStatus
  | some "READING" => some .READING
  | some "WRITING" => some .WRITING
  | some "OPEN" => some .OPEN
  | _ => none

/-! ## `check_status` route (`src/app/api/check_status/route.ts`) -/

/-- An orchestration command (`action`, `command`, `reason`, and for the
stale-writer reply the `(remote_head, your_head)` metadata pair). -/
structure Orchestration where
  action : String
  command : Option String
  reason : String
  metadata : Option (String × String)
deriving DecidableEq, Repr

/-- JSON body of a `check_status` request (`none` = field absent). -/
structure CheckStatusBody where
  repo_url : Option String
  branch : Option String
  file_paths : Option (List String)
  agent_head : Option String
deriving Repr

/-- The JSON payload returned by the `check_status` route, together with the
HTTP status code. -/
structure CheckStatusReply where
  httpStatus : Nat
  error : Option String
  status : Option String
  repo_head : Option String
  locks : List (String × LockEntry)
  warnings : List String
  orchestration : Option Orchestration
deriving DecidableEq, Repr

/-- The 400 "Missing required fields" reply of `check_status`. -/
def checkStatusBadRequest : CheckStatusReply :=
  { httpStatus := 400, error := some "Missing required fields", status := none,
    repo_head := none, locks := [], warnings := [], orchestration := none }

/-- Post-validation body of the `check_status` route: staleness check,
lock read, status derivation and orchestration, exactly as in `route.ts`
(two sequential reassignments of `status`; orchestration branches on
`isStale` first). -/
def checkStatusCore (branch : String) (filePaths : List String) (agentHead repoHead : String)
    (store : LockStore) (now : Nat) : CheckStatusReply :=
  let isStale := agentHead != repoHead
  let locks := checkLocks store now filePaths
  let status := "OK"
  let status := if isStale then "STALE" else status
  let status := if locks.length > 0 then "CONFLICT" else status
  let orchestration :=
    if isStale then
      { action := "PULL", command := some "git pull --rebase",
        reason := "Your local repo is behind. Current HEAD: " ++ repoHead,
        metadata := none : Orchestration }
    else if locks.length > 0 then
      match locks with
      | (_, firstLock) :: _ =>
        { action := "SWITCH_TASK", command := none,
          reason := "File '" ++ firstLock.file_path ++ "' is locked by " ++
            firstLock.user_name ++ " (DIRECT)",
          metadata := none }
      | [] => { action := "PROCEED", command := none, reason := "", metadata := none }
    else { action := "PROCEED", command := none, reason := "", metadata := none }
  { httpStatus := 200, error := none, status := some status, repo_head := some repoHead,
    locks := locks,
    warnings := if isStale then ["STALE_BRANCH: Your branch is behind origin/" ++ branch] else [],
    orchestration := some orchestration }

/-- The `check_status` route handler. The resolved remote HEAD and the lock
store stand in for the GitHub and Redis reads. -/
def checkStatusRoute (body : CheckStatusBody) (repoHead : String) (store : LockStore)
    (now : Nat) : CheckStatusReply :=
  if fieldMissingStr body.repo_url || fieldMissingStr body.branch ||
      fieldMissingArr body.file_paths || fieldMissingStr body.agent_head then
    checkStatusBadRequest
  else
    match body.branch, normalizeFilePaths body.file_paths, body.agent_head with
    | some branch, some filePaths, some agentHead =>
      if !isNonEmptyString body.repo_url || !isNonEmptyStr branch ||
          !isNonEmptyStr agentHead || filePaths.length = 0 then
        checkStatusBadRequest
      else
        checkStatusCore branch filePaths agentHead repoHead store now
    | _, _, _ => checkStatusBadRequest

/-! ## `post_status` route (`src/app/api/post_status/route.ts`) -/

/-- JSON body of a `post_status` request (`none` = field absent). -/
structure PostStatusBody where
  repo_url : Option String
  branch : Option String
  file_paths : Option (List String)
  status : Option String
  message : Option String
  agent_head : Option String
  new_repo_head : Option String
deriving Repr

/-- The caller-identity headers read by the route. -/
structure RequestHeaders where
  xGithubUser : Option String
  xGithubUsername : Option String
deriving Repr

/-- JS `a || b` for a string-or-null left operand. -/
def jsOr (a : Option String) (b : String) : String :=
  match a with
  | some s => if s = "" then b else s
  | none => b

/-- `request.headers.get('x-github-user') || request.headers.get('x-github-username') || 'anonymous'`. -/
def deriveUserId (h : RequestHeaders) : String :=
  jsOr h.xGithubUser (jsOr h.xGithubUsername "anonymous")

/-- `request.headers.get('x-github-username') || request.headers.get('x-github-user') || 'Anonymous'`. -/
def deriveUserName (h : RequestHeaders) : String :=
  jsOr h.xGithubUsername (jsOr h.xGithubUser "Anonymous")

/-- A dependency-graph edge (`source` imports `target`; the constant
`type: 'import'` tag carries no information and is not modelled). -/
structure GraphEdge where
  source : String
  target : String
deriving DecidableEq, Repr

/-- First-occurrence de-duplication: the iteration order of inserting into a
JS `Set` and reading it back with `Array.from`. -/
def dedupFirst (seen : List String) : List String → List String
  | [] => []
  | x :: rest =>
    if seen.contains x then dedupFirst seen rest
    else x :: dedupFirst (x :: seen) rest

/-- The JSON payload returned by the `post_status` route, together with the
HTTP status code. -/
structure PostStatusReply where
  httpStatus : Nat
  error : Option String
  success : Option Bool
  locks : Option (List LockEntry)
  orphaned_dependencies : Option (List String)
  orchestration : Option Orchestration
deriving DecidableEq, Repr

/-- The 400 "Missing required fields" reply of `post_status`. -/
def postStatusBadRequest : PostStatusReply :=
  { httpStatus := 400, error := some "Missing required fields", success := none,
    locks := none, orphaned_dependencies := none, orchestration := none }

/-- The stale-writer reply: `PULL` with `git pull --rebase` and the
`(remote_head, your_head)` metadata. -/
def postStatusPullReply (remoteHead yourHead : String) : PostStatusReply :=
  { httpStatus := 200, error := none, success := some false, locks := none,
    orphaned_dependencies := none,
    orchestration := some
      { action := "PULL", command := some "git pull --rebase",
        reason := "Your local repo is behind remote",
        metadata := some (remoteHead, yourHead) } }

/-- The lock statuses passed through to `acquireLocks` by the route
(`status` is `'WRITING'` or `'READING'` on this path). -/
def coordToLockStatus : CoordinationStatus → LockStatus
  | .READING => .READING
  | _ => .WRITING

/-- The reply built from an `acquireLocks` result (success reply, or the
`SWITCH_TASK` conflict reply with its composed reason string). -/
def acquireReply (status : CoordinationStatus) (res : AcquireResult) : PostStatusReply :=
  if res.success then
    { httpStatus := 200, error := none, success := some true, locks := res.locks,
      orphaned_dependencies := none,
      orchestration := some
        { action := "PROCEED", command := none,
          reason := if status = .READING then "Reading lock recorded"
            else "Locks acquired successfully",
          metadata := none } }
  else
    let reason :=
      if res.reason = some "FILE_CONFLICT" && isNonEmptyString res.conflictingFile &&
          isNonEmptyString res.conflictingUser then
        res.reason.getD "" ++ ": " ++ res.conflictingFile.getD "" ++ " locked by " ++
          res.conflictingUser.getD ""
      else jsOr res.reason "Failed to acquire lock"
    { httpStatus := 200, error := none, success := some false, locks := none,
      orphaned_dependencies := none,
      orchestration := some
        { action := "SWITCH_TASK", command := none, reason := reason, metadata := none } }

/-- The `OPEN` branch of the route: push-refusal guard, lock release,
orphaned-dependency computation from the cached graph edges. -/
def postStatusOpenBranch (filePaths : List String) (userId : String)
    (agentHead newRepoHead : Option String) (cachedGraphEdges : Option (List GraphEdge))
    (store : LockStore) : PostStatusReply × LockStore :=
  if isNonEmptyString newRepoHead && isNonEmptyString agentHead &&
      newRepoHead == agentHead then
    ({ httpStatus := 400, error := none, success := some false, locks := none,
       orphaned_dependencies := none,
       orchestration := some
         { action := "PUSH", command := some "git push",
           reason := "You need to push your changes to advance the repo",
           metadata := none } }, store)
  else
    let rel := releaseLocks store filePaths userId
    if !rel.1 then
      ({ httpStatus := 500, error := none, success := some false, locks := none,
         orphaned_dependencies := none,
         orchestration := some
           { action := "STOP", command := none, reason := "Failed to release locks",
             metadata := none } }, rel.2)
    else
      let orphaned :=
        match cachedGraphEdges with
        | some edges =>
          dedupFirst [] (edges.filterMap fun e =>
            if filePaths.contains e.target && !filePaths.contains e.source then
              some e.source
            else none)
        | none => []
      ({ httpStatus := 200, error := none, success := some true, locks := none,
         orphaned_dependencies := some orphaned,
         orchestration := some
           { action := "PROCEED", command := none,
             reason := "Locks released successfully", metadata := none } }, rel.2)

/-- The `WRITING`/`READING` branch of the route: missing-`agent_head` guard,
staleness gate for `WRITING`, then the atomic acquire. -/
def postStatusWritingReadingBranch (status : CoordinationStatus)
    (filePaths : List String) (userId userName message : String)
    (agentHead : Option String) (repoHead : String) (store : LockStore) (now : Nat) :
    PostStatusReply × LockStore :=
  let effectiveAgentHead := if isNonEmptyString agentHead then agentHead.getD "" else repoHead
  let proceed :=
    let out := acquireLocks store
      { filePaths := filePaths, userId := userId, userName := userName,
        status := coordToLockStatus status, message := message,
        agentHead := effectiveAgentHead } now
    (acquireReply status out.1, out.2)
  if !isNonEmptyString agentHead then
    if status = .WRITING then (postStatusBadRequest, store) else proceed
  else
    if status = .WRITING then
      if agentHead != some repoHead then
        (postStatusPullReply repoHead (agentHead.getD ""), store)
      else proceed
    else proceed

/-- The `post_status` route handler. The resolved remote HEAD, the cached
graph edges and the lock store stand in for the GitHub and Redis reads.
The trailing "Reading status recorded" fallback of the source is unreachable:
`parseCoordinationStatus` only produces `OPEN`, `WRITING`, `READING`, and all
three return earlier, which the exhaustive `match` below makes structural. -/
def postStatusRoute (body : PostStatusBody) (headers : RequestHeaders) (repoHead : String)
    (cachedGraphEdges : Option (List GraphEdge)) (store : LockStore) (now : Nat) :
    PostStatusReply × LockStore :=
  if fieldMissingStr body.repo_url || fieldMissingStr body.branch ||
      fieldMissingArr body.file_paths || fieldMissingStr body.status ||
      fieldMissingStr body.message then
    (postStatusBadRequest, store)
  else
    let filePathsOpt := normalizeFilePaths body.file_paths
    let statusOpt := parseCoordinationStatus body.status
    if !isNonEmptyString body.repo_url || !isNonEmptyString body.branch ||
        !isNonEmptyString body.message || statusOpt.isNone || filePathsOpt.isNone ||
        filePathsOpt == some [] then
      (postStatusBadRequest, store)
    else
      match statusOpt, filePathsOpt, body.message with
      | some status, some filePaths, some message =>
        let userId := deriveUserId headers
        let userName := deriveUserName headers
        match status with
        | .OPEN =>
          postStatusOpenBranch filePaths userId body.agent_head body.new_repo_head
            cachedGraphEdges store
        | .WRITING =>
          postStatusWritingReadingBranch .WRITING filePaths userId userName message
            body.agent_head repoHead store now
        | .READING =>
          postStatusWritingReadingBranch .READING filePaths userId userName message
            body.agent_head repoHead store now
      | _, _, _ => (postStatusBadRequest, store)

/-! ## Import resolution (`src/lib/resolver.ts`, `src/lib/parser.ts`) -/

/-- `isRelativeImport` (`parser.ts`): starts with `.` or `/`. -/
def isRelativeImport (importPath : String) : Bool :=
  jsStartsWithChar '.' importPath || jsStartsWithChar '/' importPath

/-- `currentFilePath.lastIndexOf('/')` followed by
`lastSlash > 0 ? currentFilePath.substring(0, lastSlash) : ''`. -/
def currentDirOf (currentFilePath : String) : String :=
  match jsLastIndexOf '/' currentFilePath.data with
  | some lastSlash =>
    if lastSlash > 0 then ⟨currentFilePath.data.take lastSlash⟩ else ""
  | none => ""

/-- The segment loop of `resolvePath`: `..` pops (when possible), `.` and empty
segments are skipped, anything else is pushed. -/
def resolvePathGo (parts : List String) : List String → List String
  | [] => parts
  | part :: rest =>
    if part = ".." then resolvePathGo parts.dropLast rest
    else if part = "." || part = "" then resolvePathGo parts rest
    else resolvePathGo (parts ++ [part]) rest

/-- `resolvePath(currentDir, relativePath)` (`resolver.ts`). -/
def resolvePath (currentDir relativePath : String) : String :=
  let parts := if currentDir ≠ "" then jsSplitChar '/' currentDir else []
  String.intercalate "/" (resolvePathGo parts (jsSplitChar '/' relativePath))

/-- `generateCandidates(basePath)`: five extension probes then four index
probes, in source order. -/
def generateCandidates (basePath : String) : List String :=
  [".ts", ".tsx", ".js", ".jsx", ".py"].map (fun ext => basePath ++ ext) ++
    ["index.ts", "index.tsx", "index.js", "index.jsx"].map
      (fun indexFile => basePath ++ "/" ++ indexFile)

/-- `resolveImportPath(importPath, currentFilePath, allFilePaths)`: `null` for
non-relative modules, otherwise the first candidate present in the tree file
set. -/
def resolveImportPath (importPath currentFilePath : String)
    (allFilePaths : List String) : Option String :=
  if !isRelativeImport importPath then none
  else
    let currentDir := currentDirOf currentFilePath
    let resolved := resolvePath currentDir importPath
    (generateCandidates resolved).find? fun candidate => allFilePaths.contains candidate

/-! ## Graph build planning (`src/lib/graph-service.ts`, `GraphService.generate`) -/

/-- A tree blob entry after the supported-extension filter (`path`, content
`sha`, optional `size`). -/
structure RepoFile where
  path : String
  sha : String
  size : Option Nat
deriving DecidableEq, Repr

/-- A graph node of the cached blob (`id`, optional `size` and `language`). -/
structure GraphNode where
  id : String
  size : Option Nat
  language : Option String
deriving DecidableEq, Repr

/-- The cached graph blob at `graph:{repo}:{branch}`: absent, a JSON string
that fails to parse, or a parsed `(nodes, edges)` pair. -/
inductive GraphBlob
  | corrupt
  | parsed (nodes : List GraphNode) (edges : List GraphEdge)
deriving Repr

/-- The planning slice of `GraphService.generate` that decides which files are
processed: diff the tree against the stored `FileShaMap`, load and prune the
existing blob, and choose between full rebuild and incremental pass. -/
structure GeneratePlan where
  newFiles : List RepoFile
  changedFiles : List RepoFile
  deletedFiles : List String
  nodesAfterDeletions : List GraphNode
  nodes : List GraphNode
  edges : List GraphEdge
  hasExistingGraph : Bool
  needsFullRebuild : Bool
  filesToProcess : List RepoFile
deriving Repr

/-- Faithful translation of `GraphService.generate` lines 236–297: the
partition of `files` by the stored sha map, the deletion/changed-edge pruning
of the parsed blob, and the full-rebuild decision. -/
def generatePlan (files : List RepoFile) (storedShas : List (String × String))
    (existing : Option GraphBlob) : GeneratePlan :=
  let allFilePaths := files.map (·.path)
  let newFiles := files.filter fun file => !jsTruthy (alookup storedShas file.path)
  let changedFiles := files.filter fun file =>
    jsTruthy (alookup storedShas file.path) && alookup storedShas file.path != some file.sha
  let deletedFiles := (storedShas.map Prod.fst).filter fun filePath =>
    !allFilePaths.contains filePath
  let parsedBlob :=
    match existing with
    | none => none
    | some .corrupt => none
    | some (.parsed nodes edges) => some (nodes, edges)
  let hasExistingGraph := parsedBlob.isSome
  let nodes0 := (parsedBlob.map Prod.fst).getD []
  let edges0 := (parsedBlob.map Prod.snd).getD []
  let nodes1 :=
    if existing.isSome && deletedFiles.length > 0 then
      nodes0.filter fun node => !deletedFiles.contains node.id
    else nodes0
  let edges1 :=
    if existing.isSome && deletedFiles.length > 0 then
      edges0.filter fun edge =>
        !deletedFiles.contains edge.source && !deletedFiles.contains edge.target
    else edges0
  let edges2 :=
    if existing.isSome && changedFiles.length > 0 then
      let changedSet := changedFiles.map (·.path)
      edges1.filter fun edge => !changedSet.contains edge.source
    else edges1
  let incrementalFiles := newFiles ++ changedFiles
  let needsFullRebuild :=
    !hasExistingGraph || newFiles.length > 0 ||
      (files.length > 0 && nodes1.length = 0 && incrementalFiles.length = 0)
  let nodes2 := if needsFullRebuild then [] else nodes1
  let edges3 := if needsFullRebuild then [] else edges2
  let filesToProcess := if needsFullRebuild then files else incrementalFiles
  { newFiles := newFiles, changedFiles := changedFiles, deletedFiles := deletedFiles,
    nodesAfterDeletions := nodes1, nodes := nodes2, edges := edges3,
    hasExistingGraph := hasExistingGraph, needsFullRebuild := needsFullRebuild,
    filesToProcess := filesToProcess }

/-! ## Store lemmas -/

/-- Every stored raw value decodes (the shape in which `acquireLocks` writes
the hash; `getLocks`/`cleanup` tolerate violations, the Lua scripts abort on
them). -/
def WellFormedStore (store : LockStore) : Prop :=
  ∀ p ∈ store, parseLockEntry p.2 ≠ none

instance (store : LockStore) : Decidable (WellFormedStore store) :=
  List.decidableBAll _ store

theorem alookup_mem {α : Type} {s : List (String × α)} {f : String} {v : α}
    (h : alookup s f = some v) : (f, v) ∈ s := by
  induction s with
  | nil => simp [alookup] at h
  | cons p rest ih =>
    obtain ⟨k, w⟩ := p
    by_cases hk : k = f
    · subst hk
      simp [alookup] at h
      simp [h]
    · simp [alookup, hk] at h
      exact List.mem_cons_of_mem _ (ih h)

theorem alookup_eq_none {α : Type} {s : List (String × α)} {f : String}
    (h : f ∉ s.map Prod.fst) : alookup s f = none := by
  induction s with
  | nil => rfl
  | cons p rest ih =>
    obtain ⟨k, w⟩ := p
    simp only [List.map_cons, List.mem_cons, not_or] at h
    have hk : ¬ k = f := fun hkf => h.1 hkf.symm
    simp [alookup, hk, ih h.2]

theorem hget_hset (k : String) (v : RawLockValue) (f : String) (s : LockStore) :
    hget (hset s k v) f = if k = f then some v else hget s f := by
  induction s with
  | nil => by_cases hf : k = f <;> simp [hget, hset, alookup, hf]
  | cons p rest ih =>
    obtain ⟨k', w⟩ := p
    by_cases hk : k' = k
    · subst hk
      by_cases hf : k' = f <;> simp [hget, hset, alookup, hf]
    · by_cases hf : k' = f
      · have hkf : ¬ k = f := fun hkk => hk (hf.trans hkk.symm)
        have hfk : ¬ f = k := fun hkk => hkf hkk.symm
        simp [hget, hset, alookup, hk, hf, hkf, hfk]
      · simpa [hget, hset, alookup, hk, hf] using ih

theorem hget_hdel (k : String) (f : String) (s : LockStore) :
    hget (hdel s k) f = if k = f then none else hget s f := by
  induction s with
  | nil => by_cases hf : k = f <;> simp [hget, hdel, alookup, hf]
  | cons p rest ih =>
    obtain ⟨k', w⟩ := p
    by_cases hk : k' = k
    · subst hk
      by_cases hf : k' = f
      · simpa [hget, hdel, alookup, hf] using ih
      · simpa [hget, hdel, alookup, hf] using ih
    · by_cases hf : k' = f
      · have hkf : ¬ k = f := fun hkk => hk (hf.trans hkk.symm)
        have hfk : ¬ f = k := fun hkk => hkf hkk.symm
        simp [hget, hdel, alookup, hk, hf, hkf, hfk]
      · simpa [hget, hdel, alookup, hk, hf] using ih

theorem mem_hdel {s : LockStore} {k : String} {p : String × RawLockValue}
    (h : p ∈ hdel s k) : p ∈ s := by
  induction s with
  | nil => simp [hdel] at h
  | cons q rest ih =>
    obtain ⟨k', w⟩ := q
    by_cases hk : k' = k
    · simp [hdel, hk] at h
      exact List.mem_cons_of_mem _ (ih h)
    · simp [hdel, hk] at h
      rcases h with h | h
      · simp [h]
      · exact List.mem_cons_of_mem _ (ih h)

theorem wellFormed_hdel {s : LockStore} {k : String}
    (h : WellFormedStore s) : WellFormedStore (hdel s k) :=
  fun p hp => h p (mem_hdel hp)

/-! ## `getLocks` / `checkLocks` lemmas -/

theorem mem_getLocks {store : LockStore} {now : Nat} {f : String} {e : LockEntry} :
    (f, e) ∈ getLocks store now ↔ (f, RawLockValue.entry e) ∈ store ∧ now < e.expiry := by
  simp only [getLocks, List.mem_filterMap]
  constructor
  · rintro ⟨⟨k, v⟩, hmem, hv⟩
    cases v with
    | malformed => simp [parseLockEntry] at hv
    | entry l =>
      simp only [parseLockEntry] at hv
      by_cases he : l.expiry > now
      · rw [if_pos he] at hv
        simp only [Option.some.injEq, Prod.mk.injEq] at hv
        obtain ⟨hk, hl⟩ := hv
        subst hk
        subst hl
        exact ⟨hmem, he⟩
      · rw [if_neg he] at hv
        exact absurd hv (by simp)
  · rintro ⟨hmem, he⟩
    exact ⟨(f, .entry e), hmem, by simp [parseLockEntry, he]⟩

theorem getLocks_keys_subset {store : LockStore} {now : Nat} {f : String}
    (h : f ∈ (getLocks store now).map Prod.fst) : f ∈ store.map Prod.fst := by
  simp only [List.mem_map] at h ⊢
  obtain ⟨⟨k, e⟩, hmem, hk⟩ := h
  exact ⟨(k, .entry e), (mem_getLocks.mp hmem).1, hk⟩

theorem nodupKeys_cons {k : String} {v : RawLockValue} {rest : LockStore}
    (h : NodupKeys ((k, v) :: rest)) :
    k ∉ rest.map Prod.fst ∧ NodupKeys rest := by
  simpa [NodupKeys] using h

theorem hget_cons_self {k : String} {v : RawLockValue} {rest : LockStore} :
    hget ((k, v) :: rest) k = some v := by
  simp [hget, alookup]

theorem hget_cons_ne {k f : String} {v : RawLockValue} {rest : LockStore}
    (hf : k ≠ f) : hget ((k, v) :: rest) f = hget rest f := by
  simp [hget, alookup, hf]

theorem alookup_cons_self {α : Type} {k : String} {x : α} {s : List (String × α)} :
    alookup ((k, x) :: s) k = some x := by
  simp [alookup]

theorem alookup_cons_ne {α : Type} {k f : String} {x : α} {s : List (String × α)}
    (hf : k ≠ f) : alookup ((k, x) :: s) f = alookup s f := by
  simp [alookup, hf]

theorem getLocks_cons_entry_live {k : String} {l : LockEntry} {rest : LockStore}
    {now : Nat} (he : now < l.expiry) :
    getLocks ((k, RawLockValue.entry l) :: rest) now = (k, l) :: getLocks rest now := by
  simp [getLocks, parseLockEntry, he]

theorem getLocks_cons_entry_dead {k : String} {l : LockEntry} {rest : LockStore}
    {now : Nat} (he : ¬ now < l.expiry) :
    getLocks ((k, RawLockValue.entry l) :: rest) now = getLocks rest now := by
  simp [getLocks, parseLockEntry, he]

theorem getLocks_cons_malformed {k : String} {rest : LockStore} {now : Nat} :
    getLocks ((k, RawLockValue.malformed) :: rest) now = getLocks rest now := by
  simp [getLocks, parseLockEntry]

/-- On a duplicate-free store, lookup in the `getLocks` view succeeds exactly
for the non-expired well-formed bindings of the raw hash. -/
theorem alookup_getLocks {store : LockStore} {now : Nat} {f : String} {e : LockEntry}
    (hnd : NodupKeys store) :
    alookup (getLocks store now) f = some e ↔
      hget store f = some (RawLockValue.entry e) ∧ now < e.expiry := by
  induction store with
  | nil => simp [getLocks, alookup, hget]
  | cons p rest ih =>
    obtain ⟨k, v⟩ := p
    obtain ⟨hk, hrest⟩ := nodupKeys_cons hnd
    have ihr := ih hrest
    have habsent : k ∉ (getLocks rest now).map Prod.fst :=
      fun hmem => hk (getLocks_keys_subset hmem)
    cases v with
    | malformed =>
      rw [getLocks_cons_malformed]
      by_cases hf : k = f
      · subst hf
        rw [alookup_eq_none habsent, hget_cons_self]
        simp
      · rw [hget_cons_ne hf]
        exact ihr
    | entry l =>
      by_cases he : now < l.expiry
      · rw [getLocks_cons_entry_live he]
        by_cases hf : k = f
        · subst hf
          rw [alookup_cons_self, hget_cons_self]
          simp only [Option.some.injEq, RawLockValue.entry.injEq]
          constructor
          · rintro hl
            subst hl
            exact ⟨rfl, he⟩
          · rintro ⟨hl, _⟩
            exact hl
        · rw [alookup_cons_ne hf, hget_cons_ne hf]
          exact ihr
      · rw [getLocks_cons_entry_dead he]
        by_cases hf : k = f
        · subst hf
          rw [alookup_eq_none habsent, hget_cons_self]
          constructor
          · rintro h
            exact absurd h (by simp)
          · rintro ⟨hl, hexp⟩
            simp only [Option.some.injEq, RawLockValue.entry.injEq] at hl
            subst hl
            exact absurd hexp he
        · rw [hget_cons_ne hf]
          exact ihr

theorem mem_checkLocks {store : LockStore} {now : Nat} {fps : List String}
    {f : String} {e : LockEntry} :
    (f, e) ∈ checkLocks store now fps ↔
      f ∈ fps ∧ alookup (getLocks store now) f = some e := by
  simp only [checkLocks, List.mem_filterMap]
  constructor
  · rintro ⟨g, hg, hmap⟩
    cases hl : alookup (getLocks store now) g with
    | none => rw [hl] at hmap; simp at hmap
    | some l =>
      rw [hl] at hmap
      simp only [Option.map_some', Option.some.injEq, Prod.mk.injEq] at hmap
      obtain ⟨hgf, hle⟩ := hmap
      subst hgf
      subst hle
      exact ⟨hg, hl⟩
  · rintro ⟨hf, hl⟩
    exact ⟨f, hf, by simp [hl]⟩

theorem checkLocks_ne_nil {store : LockStore} {now : Nat} {fps : List String} :
    checkLocks store now fps ≠ [] ↔
      ∃ f ∈ fps, ∃ e, alookup (getLocks store now) f = some e := by
  rw [checkLocks, Ne, List.filterMap_eq_nil_iff]
  constructor
  · intro h
    push_neg at h
    obtain ⟨a, ha, hne⟩ := h
    cases hl : alookup (getLocks store now) a with
    | none => rw [hl] at hne; simp at hne
    | some l => exact ⟨a, ha, l, hl⟩
  · rintro ⟨f, hf, e, he⟩ hall
    have := hall f hf
    rw [he] at this
    simp at this

/-! ## Acquire script lemmas -/

/-- Trichotomy of the check phase: clean pass, first conflict (with its
witnessing non-expired foreign entry), or abort on a malformed value. -/
theorem acquireCheckPhase_spec (store : LockStore) (userId : String) (ts : Nat) :
    ∀ F : List String,
      acquireCheckPhase store userId ts F = .ok none ∨
      (∃ f u, acquireCheckPhase store userId ts F = .ok (some (f, u)) ∧ f ∈ F ∧
        ∃ e, hget store f = some (RawLockValue.entry e) ∧ e.user_id = u ∧
          u ≠ userId ∧ ts < e.expiry) ∨
      (acquireCheckPhase store userId ts F = .error () ∧
        ∃ f ∈ F, hget store f = some RawLockValue.malformed) := by
  intro F
  induction F with
  | nil => left; rfl
  | cons f rest ih =>
    cases hv : hget store f with
    | none =>
      rcases ih with h | ⟨g, u, h, hg, hw⟩ | ⟨h, g, hg, hw⟩
      · left
        simp [acquireCheckPhase, hv, h]
      · right; left
        exact ⟨g, u, by simp [acquireCheckPhase, hv, h], List.mem_cons_of_mem _ hg, hw⟩
      · right; right
        exact ⟨by simp [acquireCheckPhase, hv, h], g, List.mem_cons_of_mem _ hg, hw⟩
    | some v =>
      cases v with
      | malformed =>
        right; right
        exact ⟨by simp [acquireCheckPhase, hv], f, List.mem_cons_self f rest, hv⟩
      | entry e =>
        by_cases hexp : ts < e.expiry
        · by_cases huid : e.user_id = userId
          · rcases ih with h | ⟨g, u, h, hg, hw⟩ | ⟨h, g, hg, hw⟩
            · left
              simp [acquireCheckPhase, hv, hexp, huid, h]
            · right; left
              exact ⟨g, u, by simp [acquireCheckPhase, hv, hexp, huid, h],
                List.mem_cons_of_mem _ hg, hw⟩
            · right; right
              exact ⟨by simp [acquireCheckPhase, hv, hexp, huid, h], g,
                List.mem_cons_of_mem _ hg, hw⟩
          · right; left
            refine ⟨f, e.user_id, ?_, List.mem_cons_self f rest,
              e, hv, rfl, huid, hexp⟩
            simp [acquireCheckPhase, hv, hexp, huid]
        · rcases ih with h | ⟨g, u, h, hg, hw⟩ | ⟨h, g, hg, hw⟩
          · left
            simp [acquireCheckPhase, hv, hexp, h]
          · right; left
            exact ⟨g, u, by simp [acquireCheckPhase, hv, hexp, h],
              List.mem_cons_of_mem _ hg, hw⟩
          · right; right
            exact ⟨by simp [acquireCheckPhase, hv, hexp, h], g,
              List.mem_cons_of_mem _ hg, hw⟩

/-- The check phase passes when every requested file is absent, expired, or
already owned by the requester. -/
theorem acquireCheckPhase_ok (store : LockStore) (userId : String) (ts : Nat) :
    ∀ F : List String,
      (∀ f ∈ F, hget store f = none ∨
        ∃ e, hget store f = some (RawLockValue.entry e) ∧
          (e.user_id = userId ∨ e.expiry ≤ ts)) →
      acquireCheckPhase store userId ts F = .ok none := by
  intro F
  induction F with
  | nil => intro _; rfl
  | cons f rest ih =>
    intro h
    have hrest := ih fun g hg => h g (List.mem_cons_of_mem _ hg)
    rcases h f (List.mem_cons_self f rest) with hv | ⟨e, hv, he⟩
    · simp [acquireCheckPhase, hv, hrest]
    · rcases he with huid | hexp
      · by_cases hlive : ts < e.expiry
        · simp [acquireCheckPhase, hv, hlive, huid, hrest]
        · simp [acquireCheckPhase, hv, hlive, hrest]
      · have hlive : ¬ ts < e.expiry := by omega
        simp [acquireCheckPhase, hv, hlive, hrest]

/-- After the commit phase, every file of `F` holds the fresh entry and every
other key is untouched. -/
theorem acquireCommitPhase_fst (req : LockRequest) (ts x : Nat) :
    ∀ (F : List String) (store : LockStore) (f : String),
      hget (acquireCommitPhase req ts x F store).1 f =
        if f ∈ F then some (RawLockValue.entry (freshLock f req ts x))
        else hget store f := by
  intro F
  induction F with
  | nil => intro store f; simp [acquireCommitPhase]
  | cons g rest ih =>
    intro store f
    show hget (acquireCommitPhase req ts x rest
      (hset store g (.entry (freshLock g req ts x)))).1 f = _
    rw [ih]
    by_cases hrest : f ∈ rest
    · simp [hrest]
    · rw [hget_hset]
      by_cases hg : g = f
      · subst hg
        simp [hrest]
      · have : ¬ f = g := fun h => hg h.symm
        simp [hrest, hg, this]

/-- The commit phase returns the installed entries in request order. -/
theorem acquireCommitPhase_snd (req : LockRequest) (ts x : Nat) :
    ∀ (F : List String) (store : LockStore),
      (acquireCommitPhase req ts x F store).2 = F.map fun f => freshLock f req ts x := by
  intro F
  induction F with
  | nil => intro store; rfl
  | cons g rest ih => intro store; simp [acquireCommitPhase, ih]

/-! ## Release script lemmas -/

/-- On a well-formed store the release script runs to completion and deletes
exactly the requester's entries among the requested files. -/
theorem luaRelease_spec (userId : String) :
    ∀ (F : List String) (store : LockStore), WellFormedStore store →
      luaRelease userId F store = .ok (match luaRelease userId F store with
        | .ok s => s
        | .error s => s) ∧
      ∀ f : String,
        hget (match luaRelease userId F store with
          | .ok s => s
          | .error s => s) f =
          match hget store f with
          | some (RawLockValue.entry e) =>
            if f ∈ F ∧ e.user_id = userId then none
            else some (RawLockValue.entry e)
          | v => v := by
  intro F
  induction F with
  | nil =>
    intro store _
    refine ⟨rfl, fun f => ?_⟩
    cases hv : hget store f with
    | none => simp [luaRelease, hv]
    | some v => cases v <;> simp [luaRelease, hv]
  | cons g rest ih =>
    intro store hwf
    cases hv : hget store g with
    | none =>
      have hr := ih store hwf
      have heq : luaRelease userId (g :: rest) store = luaRelease userId rest store := by
        simp [luaRelease, hv]
      refine ⟨by rw [heq]; exact hr.1, fun f => ?_⟩
      rw [heq]
      have := hr.2 f
      by_cases hf : f = g
      · subst hf
        rw [this, hv]
      · rw [this]
        cases hw : hget store f with
        | none => rfl
        | some v =>
          cases v with
          | malformed => rfl
          | entry e =>
            by_cases hmem : f ∈ rest
            · simp [hmem, hf]
            · simp [hmem, hf]
    | some v =>
      cases v with
      | malformed =>
        exfalso
        have := hwf (g, .malformed) (alookup_mem hv)
        simp [parseLockEntry] at this
      | entry e =>
        by_cases huid : e.user_id = userId
        · have hwf' : WellFormedStore (hdel store g) := wellFormed_hdel hwf
          have hr := ih (hdel store g) hwf'
          have heq : luaRelease userId (g :: rest) store =
              luaRelease userId rest (hdel store g) := by
            simp [luaRelease, hv, huid]
          refine ⟨by rw [heq]; exact hr.1, fun f => ?_⟩
          rw [heq]
          have := hr.2 f
          rw [this, hget_hdel]
          by_cases hf : g = f
          · subst hf
            simp [hv, huid]
          · have hfg : ¬ f = g := fun h => hf h.symm
            simp only [if_neg hf]
            cases hw : hget store f with
            | none => rfl
            | some w =>
              cases w with
              | malformed => rfl
              | entry e' =>
                by_cases hmem : f ∈ rest
                · simp [hmem, hfg]
                · simp [hmem, hfg]
        · have hr := ih store hwf
          have heq : luaRelease userId (g :: rest) store = luaRelease userId rest store := by
            simp [luaRelease, hv, huid]
          refine ⟨by rw [heq]; exact hr.1, fun f => ?_⟩
          rw [heq]
          have := hr.2 f
          rw [this]
          by_cases hf : f = g
          · subst hf
            rw [hv]
            by_cases hmem : f ∈ rest
            · simp [hmem, huid]
            · simp [hmem, huid]
          · cases hw : hget store f with
            | none => rfl
            | some w =>
              cases w with
              | malformed => rfl
              | entry e' =>
                by_cases hmem : f ∈ rest
                · simp [hmem, hf]
                · simp [hmem, hf]

/-! ## Claim theorems: lock engine -/

/-- C2: an acquire over files `F` either installs a fresh `LockEntry` for
every `f ∈ F` (success), or writes nothing at all and reports
`FILE_CONFLICT` naming a conflicting file held by a different, non-expired
owner and that owner's id. No prefix of `F` is ever left locked after a
failed acquire. -/
theorem acquireLocks_atomic (store : LockStore) (req : LockRequest) (now : Nat)
    (hwf : WellFormedStore store) :
    ((acquireLocks store req now).1.success = true ∧
      ∀ f ∈ req.filePaths,
        hget (acquireLocks store req now).2 f =
          some (RawLockValue.entry (freshLock f req now (now + LOCK_TTL_MS)))) ∨
    ((acquireLocks store req now).1.success = false ∧
      (acquireLocks store req now).2 = store ∧
      (acquireLocks store req now).1.reason = some "FILE_CONFLICT" ∧
      ∃ f u, f ∈ req.filePaths ∧
        (acquireLocks store req now).1.conflictingFile = some f ∧
        (acquireLocks store req now).1.conflictingUser = some u ∧
        ∃ e, hget store f = some (RawLockValue.entry e) ∧ e.user_id = u ∧
          u ≠ req.userId ∧ now < e.expiry) := by
  rcases acquireCheckPhase_spec store req.userId now req.filePaths with
    hc | ⟨f, u, hc, hf, e, he⟩ | ⟨_, g, _, hg⟩
  · left
    constructor
    · simp [acquireLocks, luaAcquire, hc]
    · intro f hf
      have h2 := acquireCommitPhase_fst req now (now + LOCK_TTL_MS) req.filePaths store f
      simp only [acquireLocks, luaAcquire, hc]
      rw [h2]
      simp [hf]
  · right
    refine ⟨?_, ?_, ?_, f, u, hf, ?_, ?_, e, he⟩ <;>
      simp [acquireLocks, luaAcquire, hc]
  · exfalso
    have := hwf (g, .malformed) (alookup_mem hg)
    simp [parseLockEntry] at this

/-- C2 witness: on the empty (trivially well-formed) store an acquire of one
file succeeds and installs the fresh entry. -/
theorem acquireLocks_atomic_witness :
    WellFormedStore ([] : LockStore) ∧
    (((acquireLocks []
        { filePaths := ["src/a.ts"], userId := "alice", userName := "Alice",
          status := .WRITING, message := "m", agentHead := "h" } 0).1.success = true ∧
      ∀ f ∈ ["src/a.ts"],
        hget (acquireLocks []
          { filePaths := ["src/a.ts"], userId := "alice", userName := "Alice",
            status := .WRITING, message := "m", agentHead := "h" } 0).2 f =
          some (RawLockValue.entry (freshLock f
            { filePaths := ["src/a.ts"], userId := "alice", userName := "Alice",
              status := .WRITING, message := "m", agentHead := "h" } 0
            (0 + LOCK_TTL_MS)))) ∨
    (((acquireLocks []
        { filePaths := ["src/a.ts"], userId := "alice", userName := "Alice",
          status := .WRITING, message := "m", agentHead := "h" } 0).1.success = false ∧
      (acquireLocks []
        { filePaths := ["src/a.ts"], userId := "alice", userName := "Alice",
          status := .WRITING, message := "m", agentHead := "h" } 0).2 = [] ∧
      (acquireLocks []
        { filePaths := ["src/a.ts"], userId := "alice", userName := "Alice",
          status := .WRITING, message := "m", agentHead := "h" } 0).1.reason =
        some "FILE_CONFLICT" ∧
      ∃ f u, f ∈ ["src/a.ts"] ∧
        (acquireLocks []
          { filePaths := ["src/a.ts"], userId := "alice", userName := "Alice",
            status := .WRITING, message := "m", agentHead := "h" } 0).1.conflictingFile =
          some f ∧
        (acquireLocks []
          { filePaths := ["src/a.ts"], userId := "alice", userName := "Alice",
            status := .WRITING, message := "m", agentHead := "h" } 0).1.conflictingUser =
          some u ∧
        ∃ e, hget ([] : LockStore) f = some (RawLockValue.entry e) ∧ e.user_id = u ∧
          u ≠ "alice" ∧ 0 < e.expiry))) :=
  ⟨by decide, acquireLocks_atomic []
    { filePaths := ["src/a.ts"], userId := "alice", userName := "Alice",
      status := .WRITING, message := "m", agentHead := "h" } 0 (by decide)⟩

/-- C4: every entry returned by `getLocks` or `checkLocks` is non-expired;
expired and malformed stored values are omitted from the returned map even if
physically present, and `checkLocks` restricts to the requested paths. -/
theorem lock_read_paths_filter_expired (store : LockStore) (now : Nat)
    (filePaths : List String) (hnd : NodupKeys store) :
    (∀ f e, (f, e) ∈ getLocks store now → now < e.expiry) ∧
    (∀ f e, (f, e) ∈ checkLocks store now filePaths → f ∈ filePaths ∧ now < e.expiry) ∧
    (∀ f, (hget store f = some RawLockValue.malformed ∨
        (∃ e, hget store f = some (RawLockValue.entry e) ∧ e.expiry ≤ now)) →
      alookup (getLocks store now) f = none ∧
      alookup (checkLocks store now filePaths) f = none) := by
  refine ⟨fun f e h => (mem_getLocks.mp h).2, ?_, ?_⟩
  · intro f e h
    obtain ⟨hf, hl⟩ := mem_checkLocks.mp h
    exact ⟨hf, ((alookup_getLocks hnd).mp hl).2⟩
  · intro f hbad
    have hnone : alookup (getLocks store now) f = none := by
      cases hl : alookup (getLocks store now) f with
      | none => rfl
      | some e =>
        obtain ⟨hg, hexp⟩ := (alookup_getLocks hnd).mp hl
        rcases hbad with hm | ⟨e', he', hee⟩
        · rw [hg] at hm
          cases hm
        · rw [hg] at he'
          simp only [Option.some.injEq, RawLockValue.entry.injEq] at he'
          subst he'
          omega
    refine ⟨hnone, ?_⟩
    cases hl : alookup (checkLocks store now filePaths) f with
    | none => rfl
    | some e =>
      obtain ⟨_, hgl⟩ := mem_checkLocks.mp (alookup_mem hl)
      rw [hnone] at hgl
      cases hgl

/-- C4 witness: a store holding one malformed value; the read paths omit it. -/
theorem lock_read_paths_filter_expired_witness :
    NodupKeys [("src/c.ts", RawLockValue.malformed)] ∧
    alookup (getLocks [("src/c.ts", RawLockValue.malformed)] 0) "src/c.ts" = none ∧
    alookup (checkLocks [("src/c.ts", RawLockValue.malformed)] 0 ["src/c.ts"])
      "src/c.ts" = none := by
  have h := lock_read_paths_filter_expired [("src/c.ts", RawLockValue.malformed)] 0
    ["src/c.ts"] (by decide)
  exact ⟨by decide, (h.2.2 "src/c.ts" (Or.inl (by decide))).1,
    (h.2.2 "src/c.ts" (Or.inl (by decide))).2⟩

/-- C5: release deletes exactly the requester's entries among the requested
files, leaves every other binding unchanged, and reports success
unconditionally. -/
theorem releaseLocks_owner_only (store : LockStore) (filePaths : List String)
    (userId : String) (hwf : WellFormedStore store) :
    (releaseLocks store filePaths userId).1 = true ∧
    ∀ f, hget (releaseLocks store filePaths userId).2 f =
      match hget store f with
      | some (RawLockValue.entry e) =>
        if f ∈ filePaths ∧ e.user_id = userId then none
        else some (RawLockValue.entry e)
      | v => v := by
  obtain ⟨h1, h2⟩ := luaRelease_spec userId filePaths store hwf
  constructor
  · simp only [releaseLocks]
    rw [h1]
  · intro f
    have := h2 f
    simp only [releaseLocks]
    rw [h1]
    exact this

/-- C5 witness: releasing `src/a.ts` as its owner removes the entry while the
other user's entry on `src/b.ts` survives. -/
theorem releaseLocks_owner_only_witness :
    WellFormedStore
      [("src/a.ts", RawLockValue.entry
          { file_path := "src/a.ts", user_id := "alice", user_name := "Alice",
            status := .WRITING, agent_head := "h", message := "m",
            timestamp := 0, expiry := 100 }),
       ("src/b.ts", RawLockValue.entry
          { file_path := "src/b.ts", user_id := "bob", user_name := "Bob",
            status := .WRITING, agent_head := "h", message := "m",
            timestamp := 0, expiry := 100 })] ∧
    hget (releaseLocks
      [("src/a.ts", RawLockValue.entry
          { file_path := "src/a.ts", user_id := "alice", user_name := "Alice",
            status := .WRITING, agent_head := "h", message := "m",
            timestamp := 0, expiry := 100 }),
       ("src/b.ts", RawLockValue.entry
          { file_path := "src/b.ts", user_id := "bob", user_name := "Bob",
            status := .WRITING, agent_head := "h", message := "m",
            timestamp := 0, expiry := 100 })] ["src/a.ts", "src/b.ts"] "alice").2
      "src/a.ts" = none := by
  refine ⟨by decide, ?_⟩
  rw [(releaseLocks_owner_only _ ["src/a.ts", "src/b.ts"] "alice" (by decide)).2 "src/a.ts"]
  decide

/-- C6: a same-owner re-acquire over files the owner already holds succeeds
without conflict and refreshes every entry: `timestamp` is the new call time,
`expiry` is that time plus the 300000 ms TTL, and `status`, `message`,
`agentHead` and `userName` come from the new request. -/
theorem acquireLocks_idempotent_refresh (store : LockStore) (req : LockRequest)
    (now : Nat)
    (h : ∀ f ∈ req.filePaths, ∃ e, hget store f = some (RawLockValue.entry e) ∧
      e.user_id = req.userId ∧ now < e.expiry) :
    (acquireLocks store req now).1.success = true ∧
    (acquireLocks store req now).1.reason = none ∧
    ∀ f ∈ req.filePaths,
      hget (acquireLocks store req now).2 f = some (RawLockValue.entry
        { file_path := f, user_id := req.userId, user_name := req.userName,
          status := req.status, agent_head := req.agentHead, message := req.message,
          timestamp := now, expiry := now + 300000 }) := by
  have hc : acquireCheckPhase store req.userId now req.filePaths = .ok none :=
    acquireCheckPhase_ok store req.userId now req.filePaths fun f hf => by
      obtain ⟨e, he, huid, _⟩ := h f hf
      exact Or.inr ⟨e, he, Or.inl huid⟩
  refine ⟨?_, ?_, ?_⟩
  · simp [acquireLocks, luaAcquire, hc]
  · simp [acquireLocks, luaAcquire, hc]
  · intro f hf
    have h2 := acquireCommitPhase_fst req now (now + LOCK_TTL_MS) req.filePaths store f
    simp only [acquireLocks, luaAcquire, hc]
    rw [h2]
    simp [hf, freshLock, LOCK_TTL_MS]

/-- C6 witness: alice re-acquires her live lock at time 10 and the entry is
refreshed to `timestamp 10`, `expiry 300010`, with the new message. -/
theorem acquireLocks_idempotent_refresh_witness :
    (∀ f ∈ ["src/a.ts"],
      ∃ e, hget [("src/a.ts", RawLockValue.entry
          { file_path := "src/a.ts", user_id := "alice", user_name := "Alice",
            status := .WRITING, agent_head := "h1", message := "old",
            timestamp := 0, expiry := 100 })] f = some (RawLockValue.entry e) ∧
        e.user_id = "alice" ∧ 10 < e.expiry) ∧
    hget (acquireLocks [("src/a.ts", RawLockValue.entry
        { file_path := "src/a.ts", user_id := "alice", user_name := "Alice",
          status := .WRITING, agent_head := "h1", message := "old",
          timestamp := 0, expiry := 100 })]
      { filePaths := ["src/a.ts"], userId := "alice", userName := "Alice2",
        status := .READING, message := "new", agentHead := "h2" } 10).2 "src/a.ts" =
      some (RawLockValue.entry
        { file_path := "src/a.ts", user_id := "alice", user_name := "Alice2",
          status := .READING, agent_head := "h2", message := "new",
          timestamp := 10, expiry := 10 + 300000 }) := by
  have hh : ∀ f ∈ ["src/a.ts"],
      ∃ e, hget [("src/a.ts", RawLockValue.entry
          { file_path := "src/a.ts", user_id := "alice", user_name := "Alice",
            status := .WRITING, agent_head := "h1", message := "old",
            timestamp := 0, expiry := 100 })] f = some (RawLockValue.entry e) ∧
        e.user_id = "alice" ∧ 10 < e.expiry := by
    intro f hf
    simp only [List.mem_singleton] at hf
    subst hf
    apply Exists.intro { file_path := "src/a.ts", user_id := "alice", user_name := "Alice", status := LockStatus.WRITING, agent_head := "h1", message := "old", timestamp := 0, expiry := 100 }
    exact ⟨by decide, by decide, by decide⟩
  refine ⟨hh, ?_⟩
  exact (acquireLocks_idempotent_refresh _ _ 10 hh).2.2 "src/a.ts" (by decide)

/-! ## Claim theorems: `check_status` -/

/-- The status field of a validated `check_status` reply, read off the
sequential reassignments of the handler. -/
theorem checkStatusCore_status (branch : String) (filePaths : List String)
    (agentHead repoHead : String) (store : LockStore) (now : Nat) :
    (checkStatusCore branch filePaths agentHead repoHead store now).status =
      some (if (checkLocks store now filePaths).length > 0 then "CONFLICT"
        else if agentHead != repoHead then "STALE" else "OK") := rfl

/-- C1 counterexample: a validated request that is both stale (agent HEAD
`h1`, remote HEAD `h2`) and conflicted (a live foreign lock on the requested
file) reports `CONFLICT`, not `STALE` as the claim demands. -/
theorem check_status_stale_conflict_counterexample :
    let reply := checkStatusRoute
      { repo_url := some "https://github.com/a/b", branch := some "main",
        file_paths := some ["src/a.ts"], agent_head := some "h1" } "h2"
      [("src/a.ts", RawLockValue.entry
        { file_path := "src/a.ts", user_id := "alice", user_name := "Alice",
          status := .WRITING, agent_head := "h2", message := "m",
          timestamp := 0, expiry := 100 })] 10
    reply.httpStatus = 200 ∧ "h1" ≠ "h2" ∧
      reply.locks ≠ [] ∧ reply.status = some "CONFLICT" ∧
      reply.status ≠ some "STALE" := by decide

/-- C1 (amended): for every validated `check_status` request the status field
gives `CONFLICT` precedence: it is `CONFLICT` exactly when a non-expired lock
exists on a requested file, and otherwise `STALE` when the agent HEAD differs
from the remote HEAD, else `OK`. (A request that is both stale and conflicted
reports `CONFLICT`; only the `orchestration` block prioritises staleness.) -/
theorem check_status_conflict_precedence (branch : String) (filePaths : List String)
    (agentHead repoHead : String) (store : LockStore) (now : Nat)
    (hnd : NodupKeys store) :
    ((checkStatusCore branch filePaths agentHead repoHead store now).status =
        some "CONFLICT" ↔
      ∃ f ∈ filePaths, ∃ e, hget store f = some (RawLockValue.entry e) ∧
        now < e.expiry) ∧
    ((¬ ∃ f ∈ filePaths, ∃ e, hget store f = some (RawLockValue.entry e) ∧
        now < e.expiry) →
      (checkStatusCore branch filePaths agentHead repoHead store now).status =
        some (if agentHead = repoHead then "OK" else "STALE")) := by
  have hiff : checkLocks store now filePaths ≠ [] ↔
      ∃ f ∈ filePaths, ∃ e, hget store f = some (RawLockValue.entry e) ∧
        now < e.expiry := by
    rw [checkLocks_ne_nil]
    constructor
    · rintro ⟨f, hf, e, he⟩
      obtain ⟨hg, hexp⟩ := (alookup_getLocks hnd).mp he
      exact ⟨f, hf, e, hg, hexp⟩
    · rintro ⟨f, hf, e, hg, hexp⟩
      exact ⟨f, hf, e, (alookup_getLocks hnd).mpr ⟨hg, hexp⟩⟩
  rw [checkStatusCore_status]
  constructor
  · constructor
    · intro hst
      by_cases hL : checkLocks store now filePaths = []
      · exfalso
        rw [hL] at hst
        simp only [List.length_nil, gt_iff_lt, Nat.lt_irrefl, if_false] at hst
        by_cases hs : agentHead = repoHead <;> simp [hs] at hst
      · exact hiff.mp hL
    · intro hx
      have hne : checkLocks store now filePaths ≠ [] := hiff.mpr hx
      have hlen : 0 < (checkLocks store now filePaths).length :=
        List.length_pos.mpr hne
      simp [hlen]
  · intro hx
    have hL : checkLocks store now filePaths = [] := by
      by_contra hne
      exact hx (hiff.mp hne)
    rw [hL]
    by_cases hs : agentHead = repoHead <;> simp [hs]

/-- C1 amended-claim witness: with no lock present and distinct HEADs the
status is `STALE`; with equal HEADs it is `OK`. -/
theorem check_status_conflict_precedence_witness :
    NodupKeys ([] : LockStore) ∧
    (checkStatusCore "main" ["src/a.ts"] "h1" "h2" [] 0).status = some "STALE" := by
  have h := check_status_conflict_precedence "main" ["src/a.ts"] "h1" "h2" [] 0 (by decide)
  refine ⟨by decide, ?_⟩
  have hnolock : ¬ ∃ f ∈ ["src/a.ts"], ∃ e,
      hget ([] : LockStore) f = some (RawLockValue.entry e) ∧ 0 < e.expiry := by
    rintro ⟨f, _, e, hg, _⟩
    cases hg
  have := h.2 hnolock
  simpa using this

/-! ## Claim theorems: `post_status` dispatch -/

/-- C3 counterexample: a `post_status` request whose `status` is `BLOCKED`
(none of `OPEN`/`WRITING`/`READING`) is rejected with a 400 validation error,
not recorded as informational with a successful `PROCEED` reply. -/
theorem post_status_unknown_status_counterexample :
    let out := postStatusRoute
      { repo_url := some "https://github.com/a/b", branch := some "main",
        file_paths := some ["src/a.ts"], status := some "BLOCKED",
        message := some "m", agent_head := some "h", new_repo_head := none }
      { xGithubUser := none, xGithubUsername := none } "h" none [] 0
    out.1.httpStatus = 400 ∧ out.1.error = some "Missing required fields" ∧
      out.1.success = none ∧ out.1.orchestration = none := by decide

/-- C3 (amended): every `post_status` request whose `status` value is none of
`OPEN`, `WRITING`, `READING` is rejected as a 400 "Missing required fields"
validation error and leaves the lock store unchanged; the informational
`PROCEED` fallback of the handler is unreachable. -/
theorem post_status_unknown_status_rejected (body : PostStatusBody)
    (headers : RequestHeaders) (repoHead : String)
    (cachedGraphEdges : Option (List GraphEdge)) (store : LockStore) (now : Nat)
    (h : parseCoordinationStatus body.status = none) :
    postStatusRoute body headers repoHead cachedGraphEdges store now =
      (postStatusBadRequest, store) := by
  cases hcond : (fieldMissingStr body.repo_url || fieldMissingStr body.branch ||
      fieldMissingArr body.file_paths || fieldMissingStr body.status ||
      fieldMissingStr body.message) with
  | true => simp [postStatusRoute, hcond]
  | false => simp [postStatusRoute, hcond, h]

/-- C3 amended-claim witness: status `IDLE` is parsed as unknown and the
request is rejected with the store untouched. -/
theorem post_status_unknown_status_rejected_witness :
    parseCoordinationStatus (some "IDLE") = none ∧
    postStatusRoute
      { repo_url := some "https://github.com/a/b", branch := some "main",
        file_paths := some ["src/a.ts"], status := some "IDLE",
        message := some "m", agent_head := some "h", new_repo_head := none }
      { xGithubUser := none, xGithubUsername := none } "h" none [] 0 =
      (postStatusBadRequest, []) :=
  ⟨by decide, post_status_unknown_status_rejected _ _ "h" none [] 0 (by decide)⟩

theorem fieldMissingStr_some (s : String) :
    fieldMissingStr (some s) = !isNonEmptyStr s := by
  by_cases h : (jsTrim s).length = 0
  · simp [fieldMissingStr, isNonEmptyStr, h]
  · simp [fieldMissingStr, isNonEmptyStr, h, Nat.pos_of_ne_zero h]

/-- A validated `WRITING` request reduces to the writing/reading branch of
the handler with the normalized paths and the header-derived identity. -/
theorem postStatusRoute_writing_reduce
    (repoUrl branch message : String) (rawPaths : List String)
    (agentHead newRepoHead : Option String) (headers : RequestHeaders)
    (repoHead : String) (edges : Option (List GraphEdge)) (store : LockStore) (now : Nat)
    (hrepo : isNonEmptyStr repoUrl = true) (hbranch : isNonEmptyStr branch = true)
    (hmsg : isNonEmptyStr message = true)
    (hpaths : normalizeFilePathsGo [] rawPaths ≠ []) :
    postStatusRoute
      { repo_url := some repoUrl, branch := some branch, file_paths := some rawPaths,
        status := some "WRITING", message := some message, agent_head := agentHead,
        new_repo_head := newRepoHead } headers repoHead edges store now =
      postStatusWritingReadingBranch .WRITING (normalizeFilePathsGo [] rawPaths)
        (deriveUserId headers) (deriveUserName headers) message agentHead repoHead
        store now := by
  have hraw : rawPaths ≠ [] := by
    intro hr
    subst hr
    exact hpaths rfl
  have h1 : fieldMissingStr (some repoUrl) = false := by
    rw [fieldMissingStr_some, hrepo]
    rfl
  have h2 : fieldMissingStr (some branch) = false := by
    rw [fieldMissingStr_some, hbranch]
    rfl
  have h3 : fieldMissingStr (some message) = false := by
    rw [fieldMissingStr_some, hmsg]
    rfl
  have h4 : fieldMissingArr (some rawPaths) = false := by
    simp [fieldMissingArr, List.length_eq_zero, hraw]
  have h5 : fieldMissingStr (some "WRITING") = false := by decide
  have h6 : parseCoordinationStatus (some "WRITING") = some CoordinationStatus.WRITING :=
    rfl
  have h7 : normalizeFilePaths (some rawPaths) =
      some (normalizeFilePathsGo [] rawPaths) := rfl
  have h8 : (some (normalizeFilePathsGo [] rawPaths) == some ([] : List String)) =
      false := by
    rw [beq_eq_false_iff_ne]
    simpa using hpaths
  simp [postStatusRoute, h1, h2, h3, h4, h5, h6, h7, h8, isNonEmptyString,
    hrepo, hbranch, hmsg]

theorem writingBranch_missing_head (fps : List String) (uid uname msg : String)
    (agentHead : Option String) (repoHead : String) (store : LockStore) (now : Nat)
    (h : isNonEmptyString agentHead = false) :
    postStatusWritingReadingBranch .WRITING fps uid uname msg agentHead repoHead
      store now = (postStatusBadRequest, store) := by
  simp [postStatusWritingReadingBranch, h]

theorem writingBranch_stale (fps : List String) (uid uname msg : String)
    (ah repoHead : String) (store : LockStore) (now : Nat)
    (h1 : isNonEmptyStr ah = true) (h2 : ah ≠ repoHead) :
    postStatusWritingReadingBranch .WRITING fps uid uname msg (some ah) repoHead
      store now = (postStatusPullReply repoHead ah, store) := by
  have hne : (some ah != some repoHead) = true := by
    simp [bne]
    exact h2
  simp [postStatusWritingReadingBranch, isNonEmptyString, h1, hne]

theorem writingBranch_fresh (fps : List String) (uid uname msg : String)
    (repoHead : String) (store : LockStore) (now : Nat)
    (h1 : isNonEmptyStr repoHead = true) :
    postStatusWritingReadingBranch .WRITING fps uid uname msg (some repoHead) repoHead
      store now =
      (acquireReply .WRITING (acquireLocks store
          { filePaths := fps, userId := uid, userName := uname,
            status := LockStatus.WRITING, message := msg, agentHead := repoHead } now).1,
        (acquireLocks store
          { filePaths := fps, userId := uid, userName := uname,
            status := LockStatus.WRITING, message := msg, agentHead := repoHead } now).2) := by
  simp [postStatusWritingReadingBranch, isNonEmptyString, h1, coordToLockStatus]

/-- C7: for a validated `post_status` request with status `WRITING`: a missing
`agent_head` is rejected as missing fields; an `agent_head` differing from the
remote HEAD yields the unsuccessful `PULL` reply carrying
`git pull --rebase` and the `(remote_head, your_head)` metadata, with no lock
acquisition attempted (store unchanged); only an `agent_head` equal to the
remote HEAD reaches the lock engine, whose outcome the reply reports. -/
theorem post_status_writing_gate
    (repoUrl branch message : String) (rawPaths : List String)
    (agentHead newRepoHead : Option String) (headers : RequestHeaders)
    (repoHead : String) (edges : Option (List GraphEdge)) (store : LockStore) (now : Nat)
    (hrepo : isNonEmptyStr repoUrl = true) (hbranch : isNonEmptyStr branch = true)
    (hmsg : isNonEmptyStr message = true)
    (hpaths : normalizeFilePathsGo [] rawPaths ≠ []) :
    (isNonEmptyString agentHead = false →
      postStatusRoute
        { repo_url := some repoUrl, branch := some branch, file_paths := some rawPaths,
          status := some "WRITING", message := some message, agent_head := agentHead,
          new_repo_head := newRepoHead } headers repoHead edges store now =
        (postStatusBadRequest, store)) ∧
    (∀ ah, agentHead = some ah → isNonEmptyStr ah = true → ah ≠ repoHead →
      postStatusRoute
        { repo_url := some repoUrl, branch := some branch, file_paths := some rawPaths,
          status := some "WRITING", message := some message, agent_head := agentHead,
          new_repo_head := newRepoHead } headers repoHead edges store now =
        (postStatusPullReply repoHead ah, store)) ∧
    (agentHead = some repoHead → isNonEmptyStr repoHead = true →
      postStatusRoute
        { repo_url := some repoUrl, branch := some branch, file_paths := some rawPaths,
          status := some "WRITING", message := some message, agent_head := agentHead,
          new_repo_head := newRepoHead } headers repoHead edges store now =
        (acquireReply .WRITING (acquireLocks store
            { filePaths := normalizeFilePathsGo [] rawPaths,
              userId := deriveUserId headers, userName := deriveUserName headers,
              status := LockStatus.WRITING, message := message,
              agentHead := repoHead } now).1,
          (acquireLocks store
            { filePaths := normalizeFilePathsGo [] rawPaths,
              userId := deriveUserId headers, userName := deriveUserName headers,
              status := LockStatus.WRITING, message := message,
              agentHead := repoHead } now).2)) := by
  have hred := postStatusRoute_writing_reduce repoUrl branch message rawPaths
    agentHead newRepoHead headers repoHead edges store now hrepo hbranch hmsg hpaths
  refine ⟨?_, ?_, ?_⟩
  · intro hmiss
    rw [hred]
    exact writingBranch_missing_head _ _ _ _ _ _ _ _ hmiss
  · intro ah hah hne hstale
    subst hah
    rw [hred]
    exact writingBranch_stale _ _ _ _ _ _ _ _ hne hstale
  · intro hah hhead
    subst hah
    rw [hred]
    exact writingBranch_fresh _ _ _ _ _ _ _ hhead

/-- C7 witness: a validated `WRITING` request with no `agent_head` is
rejected as missing fields. -/
theorem post_status_writing_gate_witness :
    normalizeFilePathsGo [] ["src/a.ts"] ≠ [] ∧
    postStatusRoute
      { repo_url := some "https://github.com/a/b", branch := some "main",
        file_paths := some ["src/a.ts"], status := some "WRITING",
        message := some "m", agent_head := none, new_repo_head := none }
      { xGithubUser := none, xGithubUsername := none } "h" none [] 0 =
      (postStatusBadRequest, []) :=
  ⟨by decide,
    (post_status_writing_gate "https://github.com/a/b" "main" "m" ["src/a.ts"]
      none none { xGithubUser := none, xGithubUsername := none } "h" none [] 0
      (by decide) (by decide) (by decide) (by decide)).1 (by decide)⟩

/-- C10: with neither `x-github-user` nor `x-github-username` header the lock
owner identity defaults to `anonymous` (display name `Anonymous`); hence a
second unauthenticated agent acquiring a file already locked by `anonymous`
refreshes the lock (success, `PROCEED`, fresh entry) instead of receiving
`FILE_CONFLICT`. -/
theorem anonymous_owner_collision
    (repoUrl branch message f repoHead : String)
    (edges : Option (List GraphEdge)) (store : LockStore) (now : Nat) (e : LockEntry)
    (hrepo : isNonEmptyStr repoUrl = true) (hbranch : isNonEmptyStr branch = true)
    (hmsg : isNonEmptyStr message = true) (hhead : isNonEmptyStr repoHead = true)
    (hf : jsTrim f = f) (hfne : isNonEmptyStr f = true)
    (hlock : hget store f = some (RawLockValue.entry e))
    (howner : e.user_id = "anonymous") (hlive : now < e.expiry) :
    deriveUserId { xGithubUser := none, xGithubUsername := none } = "anonymous" ∧
    deriveUserName { xGithubUser := none, xGithubUsername := none } = "Anonymous" ∧
    ((postStatusRoute
        { repo_url := some repoUrl, branch := some branch, file_paths := some [f],
          status := some "WRITING", message := some message,
          agent_head := some repoHead, new_repo_head := none }
        { xGithubUser := none, xGithubUsername := none } repoHead edges store
        now).1.success = some true ∧
      ((postStatusRoute
        { repo_url := some repoUrl, branch := some branch, file_paths := some [f],
          status := some "WRITING", message := some message,
          agent_head := some repoHead, new_repo_head := none }
        { xGithubUser := none, xGithubUsername := none } repoHead edges store
        now).1.orchestration.map Orchestration.action) = some "PROCEED" ∧
      hget (postStatusRoute
        { repo_url := some repoUrl, branch := some branch, file_paths := some [f],
          status := some "WRITING", message := some message,
          agent_head := some repoHead, new_repo_head := none }
        { xGithubUser := none, xGithubUsername := none } repoHead edges store
        now).2 f = some (RawLockValue.entry
          { file_path := f, user_id := "anonymous", user_name := "Anonymous",
            status := .WRITING, agent_head := repoHead, message := message,
            timestamp := now, expiry := now + LOCK_TTL_MS })) := by
  have hnorm : normalizeFilePathsGo [] [f] = [f] := by
    simp [normalizeFilePathsGo, hfne, hf]
  have hpaths : normalizeFilePathsGo [] [f] ≠ [] := by
    rw [hnorm]
    simp
  have hgate := (post_status_writing_gate repoUrl branch message [f]
    (some repoHead) none { xGithubUser := none, xGithubUsername := none }
    repoHead edges store now hrepo hbranch hmsg hpaths).2.2 rfl hhead
  rw [hnorm] at hgate
  have huid : deriveUserId { xGithubUser := none, xGithubUsername := none } =
      "anonymous" := rfl
  have huname : deriveUserName { xGithubUser := none, xGithubUsername := none } =
      "Anonymous" := rfl
  rw [huid, huname] at hgate
  have hacq := acquireLocks_idempotent_refresh store
    { filePaths := [f], userId := "anonymous", userName := "Anonymous",
      status := LockStatus.WRITING, message := message, agentHead := repoHead } now
    (by
      intro g hg
      simp only [List.mem_singleton] at hg
      subst hg
      exact ⟨e, hlock, howner, hlive⟩)
  refine ⟨rfl, rfl, ?_, ?_, ?_⟩
  · rw [hgate]
    simp [acquireReply, hacq.1]
  · rw [hgate]
    simp [acquireReply, hacq.1]
  · rw [hgate]
    have := hacq.2.2 f (by simp)
    simpa [LOCK_TTL_MS] using this

/-- C10 witness: on a store where `anonymous` holds a live lock on
`src/a.ts`, a second headerless `WRITING` request succeeds. -/
theorem anonymous_owner_collision_witness :
    hget [("src/a.ts", RawLockValue.entry
      { file_path := "src/a.ts", user_id := "anonymous", user_name := "Anonymous",
        status := .WRITING, agent_head := "h", message := "first",
        timestamp := 0, expiry := 100 })] "src/a.ts" = some (RawLockValue.entry
      { file_path := "src/a.ts", user_id := "anonymous", user_name := "Anonymous",
        status := .WRITING, agent_head := "h", message := "first",
        timestamp := 0, expiry := 100 }) ∧
    (postStatusRoute
      { repo_url := some "https://github.com/a/b", branch := some "main",
        file_paths := some ["src/a.ts"], status := some "WRITING",
        message := some "second", agent_head := some "h", new_repo_head := none }
      { xGithubUser := none, xGithubUsername := none } "h" none
      [("src/a.ts", RawLockValue.entry
        { file_path := "src/a.ts", user_id := "anonymous", user_name := "Anonymous",
          status := .WRITING, agent_head := "h", message := "first",
          timestamp := 0, expiry := 100 })] 10).1.success = some true :=
  ⟨by decide,
    (anonymous_owner_collision "https://github.com/a/b" "main" "second" "src/a.ts" "h"
      none
      [("src/a.ts", RawLockValue.entry
        { file_path := "src/a.ts", user_id := "anonymous", user_name := "Anonymous",
          status := .WRITING, agent_head := "h", message := "first",
          timestamp := 0, expiry := 100 })] 10
      { file_path := "src/a.ts", user_id := "anonymous", user_name := "Anonymous",
        status := .WRITING, agent_head := "h", message := "first",
        timestamp := 0, expiry := 100 }
      (by decide) (by decide) (by decide) (by decide) (by decide)
      (by decide) (by decide) (by decide) (by decide)).2.2.1⟩

/-! ## Claim theorems: import resolution -/

/-- First-match semantics of `List.find?`: a hit satisfies the predicate and
every earlier element fails it. -/
theorem find?_first {α : Type} (p : α → Bool) :
    ∀ (l : List α) (c : α), l.find? p = some c →
      p c = true ∧ ∃ i, l.get? i = some c ∧
        ∀ j, j < i → ∀ d, l.get? j = some d → p d = false := by
  intro l
  induction l with
  | nil => intro c h; cases h
  | cons x rest ih =>
    intro c h
    by_cases hx : p x = true
    · rw [List.find?_cons_of_pos _ hx] at h
      injection h with h
      subst h
      exact ⟨hx, 0, rfl, fun j hj => absurd hj (Nat.not_lt_zero j)⟩
    · rw [List.find?_cons_of_neg _ hx] at h
      obtain ⟨hpc, i, hi, hfirst⟩ := ih c h
      refine ⟨hpc, i + 1, by simpa using hi, ?_⟩
      intro j hj d hd
      cases j with
      | zero =>
        simp only [List.get?_cons_zero, Option.some.injEq] at hd
        subst hd
        exact Bool.eq_false_iff.mpr hx
      | succ j' =>
        simp only [List.get?_cons_succ] at hd
        exact hfirst j' (by omega) d hd

/-- C8: `resolveImportPath` returns no resolution for a non-relative module;
for a relative module it normalizes the target against the importing file's
directory and probes the nine candidates `X.ts, X.tsx, X.js, X.jsx, X.py,
X/index.ts, X/index.tsx, X/index.js, X/index.jsx` in that order against the
tree file set, returning the first present candidate and `null` when none
is present. -/
theorem resolveImportPath_spec (M F : String) (S : List String) :
    (isRelativeImport M = false → resolveImportPath M F S = none) ∧
    (isRelativeImport M = true →
      (∀ c, resolveImportPath M F S = some c →
        S.contains c = true ∧
        ∃ i, (generateCandidates (resolvePath (currentDirOf F) M)).get? i = some c ∧
          ∀ j, j < i → ∀ d,
            (generateCandidates (resolvePath (currentDirOf F) M)).get? j = some d →
            S.contains d = false) ∧
      (resolveImportPath M F S = none →
        ∀ c ∈ generateCandidates (resolvePath (currentDirOf F) M),
          S.contains c = false)) ∧
    generateCandidates (resolvePath (currentDirOf F) M) =
      [resolvePath (currentDirOf F) M ++ ".ts",
       resolvePath (currentDirOf F) M ++ ".tsx",
       resolvePath (currentDirOf F) M ++ ".js",
       resolvePath (currentDirOf F) M ++ ".jsx",
       resolvePath (currentDirOf F) M ++ ".py",
       resolvePath (currentDirOf F) M ++ "/" ++ "index.ts",
       resolvePath (currentDirOf F) M ++ "/" ++ "index.tsx",
       resolvePath (currentDirOf F) M ++ "/" ++ "index.js",
       resolvePath (currentDirOf F) M ++ "/" ++ "index.jsx"] := by
  refine ⟨?_, ?_, by simp [generateCandidates]⟩
  · intro h
    simp [resolveImportPath, h]
  · intro hrel
    have hres : resolveImportPath M F S =
        (generateCandidates (resolvePath (currentDirOf F) M)).find?
          fun candidate => S.contains candidate := by
      simp [resolveImportPath, hrel]
    constructor
    · intro c hc
      rw [hres] at hc
      obtain ⟨hpc, i, hi, hfirst⟩ := find?_first _ _ c hc
      exact ⟨hpc, i, hi, hfirst⟩
    · intro hc
      rw [hres] at hc
      intro c hcand
      have := List.find?_eq_none.mp hc c hcand
      exact Bool.eq_false_iff.mpr this

/-- C8 witness: `./b` imported from `src/a.ts` resolves to `src/b.ts`, the
first candidate present in the tree set. -/
theorem resolveImportPath_spec_witness :
    isRelativeImport "./b" = true ∧
    resolveImportPath "./b" "src/a.ts" ["src/b.ts"] = some "src/b.ts" ∧
    List.contains ["src/b.ts"] "src/b.ts" = true := by
  have h := ((resolveImportPath_spec "./b" "src/a.ts" ["src/b.ts"]).2.1
    (by decide)).1 "src/b.ts" (by decide)
  exact ⟨by decide, by decide, h.1⟩

/-! ## Claim theorems: graph build planning -/

/-- C9 counterexample: with no new file and a present, parseable cached blob
(parsed to an empty node set) the build still processes the whole tree, not
just the (empty) changed set. -/
theorem generate_rebuild_counterexample :
    let plan := generatePlan [{ path := "a.ts", sha := "s1", size := none }]
      [("a.ts", "s1")] (some (GraphBlob.parsed [] []))
    plan.newFiles = [] ∧ plan.hasExistingGraph = true ∧ plan.changedFiles = [] ∧
      plan.filesToProcess = [{ path := "a.ts", sha := "s1", size := none }] ∧
      plan.filesToProcess ≠ plan.changedFiles := by decide

/-- C9 (amended): a full rebuild (processing every supported file of the
tree) is performed when there is any new file, or the cached blob is missing
or unparseable, or additionally when the parsed graph has an empty node set
(after pruning deleted files) while the tree is non-empty and no file is new
or changed; otherwise only the changed files are reparsed incrementally. -/
theorem generate_rebuild_policy (files : List RepoFile)
    (storedShas : List (String × String)) (existing : Option GraphBlob) :
    ((generatePlan files storedShas existing).newFiles ≠ [] ∨
      (generatePlan files storedShas existing).hasExistingGraph = false →
      (generatePlan files storedShas existing).filesToProcess = files) ∧
    ((generatePlan files storedShas existing).hasExistingGraph = false ↔
      existing = none ∨ existing = some GraphBlob.corrupt) ∧
    ((generatePlan files storedShas existing).newFiles = [] →
      (generatePlan files storedShas existing).hasExistingGraph = true →
      (generatePlan files storedShas existing).filesToProcess =
        if files ≠ [] ∧
            (generatePlan files storedShas existing).nodesAfterDeletions = [] ∧
            (generatePlan files storedShas existing).changedFiles = []
          then files
          else (generatePlan files storedShas existing).changedFiles) := by
  have hneeds : (generatePlan files storedShas existing).needsFullRebuild =
      (!(generatePlan files storedShas existing).hasExistingGraph ||
        (generatePlan files storedShas existing).newFiles.length > 0 ||
        (files.length > 0 &&
          (generatePlan files storedShas existing).nodesAfterDeletions.length = 0 &&
          ((generatePlan files storedShas existing).newFiles ++
            (generatePlan files storedShas existing).changedFiles).length = 0)) := rfl
  have hfiles : (generatePlan files storedShas existing).filesToProcess =
      if (generatePlan files storedShas existing).needsFullRebuild then files
      else (generatePlan files storedShas existing).newFiles ++
        (generatePlan files storedShas existing).changedFiles := rfl
  refine ⟨?_, ?_, ?_⟩
  · intro h
    rw [hfiles, hneeds]
    rcases h with h | h
    · have : 0 < (generatePlan files storedShas existing).newFiles.length :=
        List.length_pos.mpr h
      simp [this]
    · simp [h]
  · cases existing with
    | none => simp [generatePlan]
    | some blob => cases blob <;> simp [generatePlan]
  · intro hnew hex
    rw [hfiles, hneeds, hnew, hex]
    by_cases hc : files ≠ [] ∧
        (generatePlan files storedShas existing).nodesAfterDeletions = [] ∧
        (generatePlan files storedShas existing).changedFiles = []
    · obtain ⟨hc1, hc2, hc3⟩ := hc
      have hl1 : 0 < files.length := List.length_pos.mpr hc1
      simp [hc1, hc2, hc3, hl1]
    · rw [if_neg hc]
      push_neg at hc
      by_cases h1 : files = []
      · simp [h1]
      · have hl1 : 0 < files.length := List.length_pos.mpr h1
        by_cases h2 : (generatePlan files storedShas existing).nodesAfterDeletions = []
        · have h3 : (generatePlan files storedShas existing).changedFiles ≠ [] :=
            hc h1 h2
          have hl3 : 0 < (generatePlan files storedShas existing).changedFiles.length :=
            List.length_pos.mpr h3
          simp [h2, hl3, Nat.ne_of_gt hl3]
        · have hl2 : (generatePlan files storedShas existing).nodesAfterDeletions.length ≠ 0 := by
            intro hz
            exact h2 (List.length_eq_zero.mp hz)
          simp [hl2]

/-- C9 amended-claim witness: a tree with one brand-new file triggers a full
rebuild processing the whole tree. -/
theorem generate_rebuild_policy_witness :
    (generatePlan [{ path := "a.ts", sha := "s1", size := none }] [] none).newFiles ≠
      [] ∧
    (generatePlan [{ path := "a.ts", sha := "s1", size := none }] [] none).filesToProcess =
      [{ path := "a.ts", sha := "s1", size := none }] :=
  ⟨by decide,
    (generate_rebuild_policy [{ path := "a.ts", sha := "s1", size := none }] [] none).1
      (Or.inl (by decide))⟩

end Relay

